import Mathlib

/-!
Verification development for the cone-abstraction and numerical-kernel core
of a conic interior point solver (files src/algebra/native/mod.rs and
src/solver/core/cones/compositecone.rs).

Modelling conventions:
* the scalar type T (a generic float in the source) is modelled as the
  rationals wherever the relevant behaviour is exact arithmetic;
* the float specific behaviours are modelled with dedicated types:
  comparisons against NaN (type FV below) and the infinity fold seeds of
  minimum and maximum (WithTop of the rationals);
* unrecoverable aborts of the source (assert_eq failures, unwrap on an
  empty option, out of bounds indexing, unimplemented cone kinds, the
  explicit abort in CompositeCone.dim) are modelled as Except.error
  values, so that the presence or absence of a fail-fast path is part of
  the type of each operation.
-/

namespace Clarabel

/-! ### Vector kernel (impl VectorMath for [T] in src/algebra/native/mod.rs) -/

/-- Embedding of hadamard: self.iter_mut().zip(y) multiplies elementwise.
The zip stops at the shorter operand and any tail of self is left
untouched; the source performs no length check, so this operation never
fails. -/
def hadamard (x y : List ℚ) : Except String (List ℚ) :=
  Except.ok (List.zipWith (fun a b => a * b) x y ++ x.drop y.length)

/-- Embedding of dot: fold of elementwise products over the zip of the two
buffers, seeded from zero. The zip truncates to the shorter operand and the
source performs no length check, so this operation never fails. -/
def dot (x y : List ℚ) : Except String ℚ :=
  Except.ok ((x.zip y).foldl (fun acc p => acc + p.1 * p.2) 0)

/-- Embedding of norm_scaled: asserts equal lengths, then folds the sum of
squares of the elementwise product. The source finally applies T::sqrt to
the total; the square root has no exact rational counterpart and the claims
concern only the length guard, so the embedding returns the accumulated
total (the sqrt argument). -/
def norm_scaled (x v : List ℚ) : Except String ℚ :=
  if x.length = v.length then
    Except.ok ((x.zip v).foldl (fun acc p => acc + (p.1 * p.2) * (p.1 * p.2)) 0)
  else Except.error "assertion failed: mismatched buffer lengths"

/-- Embedding of axpby: asserts self.len() == x.len(), then performs
y := a*x + b*y in place with the exact-case branches for b in 0, 1, -1. -/
def axpby (y : List ℚ) (a : ℚ) (x : List ℚ) (b : ℚ) : Except String (List ℚ) :=
  if y.length = x.length then
    if b = 0 then Except.ok (List.zipWith (fun _yv xv => a * xv) y x)
    else if b = 1 then Except.ok (List.zipWith (fun yv xv => a * xv + yv) y x)
    else if b = -1 then Except.ok (List.zipWith (fun yv xv => a * xv - yv) y x)
    else Except.ok (List.zipWith (fun yv xv => a * xv + b * yv) y x)
  else Except.error "assertion failed: mismatched buffer lengths"

/-- Embedding of waxpby: asserts self.len() == x.len() and
self.len() == y.len(), then writes w elementwise from the loop body
w = a * x * b * y (the source multiplies all four factors). -/
def waxpby (w : List ℚ) (a : ℚ) (x : List ℚ) (b : ℚ) (y : List ℚ) :
    Except String (List ℚ) :=
  if w.length = x.length then
    if w.length = y.length then
      Except.ok (List.zipWith (fun xv yv => a * xv * b * yv) x y)
    else Except.error "assertion failed: mismatched buffer lengths"
  else Except.error "assertion failed: mismatched buffer lengths"

/-- The min fold of minimum with an explicit accumulator. -/
def minimumFrom (acc : WithTop ℚ) (l : List ℚ) : WithTop ℚ :=
  l.foldl (fun r s => min r (s : WithTop ℚ)) acc

/-- Embedding of minimum: fold combining with T::min, seeded from
T::infinity(). The float infinity is modelled by the top element of
WithTop of the rationals. -/
def minimum (l : List ℚ) : WithTop ℚ :=
  minimumFrom ⊤ l

/-- The max fold of maximum with an explicit accumulator. -/
def maximumFrom (acc : WithTop ℚ) (l : List ℚ) : WithTop ℚ :=
  l.foldl (fun r s => max r (s : WithTop ℚ)) acc

/-- Embedding of maximum: fold combining with T::max, also seeded from
T::infinity() in the source. -/
def maximum (l : List ℚ) : WithTop ℚ :=
  maximumFrom ⊤ l

/-- Float value model for the NaN behaviour of norm_inf: a value is either
NaN or a finite rational. -/
inductive FV where
  | nan : FV
  | fin (q : ℚ) : FV
deriving DecidableEq

/-- Absolute value on the float model; the absolute value of NaN is NaN. -/
def FV.abs : FV → FV
  | FV.nan => FV.nan
  | FV.fin q => FV.fin |q|

/-- The strict greater-than comparison of the float model: any comparison
involving NaN is false, as for IEEE floats. -/
def FV.gt : FV → FV → Bool
  | FV.fin a, FV.fin b => decide (b < a)
  | _, _ => false

/-- The comparison fold of norm_inf with an explicit accumulator. -/
def norm_inf_from (out : FV) (l : List FV) : FV :=
  (l.map FV.abs).foldl (fun out v => if FV.gt v out then v else out) out

/-- Embedding of norm_inf: out starts at T::zero() and each absolute value
v replaces out only when v > out holds. -/
def norm_inf (l : List FV) : FV :=
  norm_inf_from (FV.fin 0) l

/-- Max-of-absolute-values fold over the non-NaN entries, with an explicit
accumulator. -/
def specMaxAbsFrom (c : ℚ) (l : List FV) : ℚ :=
  (l.filterMap (fun v => match v with | FV.nan => none | FV.fin q => some q)).foldl
    (fun acc q => max acc |q|) c

/-- Reference value, following the words of the spec: the maximum absolute
value over the buffer with the NaN entries skipped (zero when nothing
remains). -/
def specMaxAbsIgnoringNan (l : List FV) : ℚ :=
  specMaxAbsFrom 0 l

/-! ### Sparse matrix kernel (CSC, src/algebra/native/mod.rs) -/

/-- Compressed sparse column matrix: m rows, n columns, column pointers,
row indices and values. -/
structure CscMatrix where
  m : ℕ
  n : ℕ
  colptr : List ℕ
  rowval : List ℕ
  nzval : List ℚ
deriving DecidableEq

/-- Orientation selector of gemv: N applies the matrix, T its transpose. -/
inductive MatrixShape where
  | N : MatrixShape
  | T : MatrixShape
deriving DecidableEq

/-- Checked list read; an out of bounds index is an unrecoverable abort in
the source and an error value here. -/
def getE {α : Type} (l : List α) (i : ℕ) : Except String α :=
  match l.get? i with
  | some v => Except.ok v
  | none => Except.error "index out of bounds"

/-- Checked list write, with the same abort convention as getE. -/
def setE (l : List ℚ) (i : ℕ) (v : ℚ) : Except String (List ℚ) :=
  if i < l.length then Except.ok (l.set i v) else Except.error "index out of bounds"

/-- The b-term preamble shared by both gemv kernels: y is zeroed when b = 0,
kept when b = 1, negated when b = -1, and scaled by b otherwise. -/
def scaleBy (b : ℚ) (y : List ℚ) : List ℚ :=
  if b = 0 then List.replicate y.length 0
  else if b = 1 then y
  else if b = -1 then y.map (fun v => -v)
  else y.map (fun v => b * v)

/-- The single-entry accumulation of the no-transpose kernel, with the fast
paths for a in 1, -1 made explicit as in the source. -/
def accumN (A : CscMatrix) (x : List ℚ) (a : ℚ) (j : ℕ) (y : List ℚ) (i : ℕ) :
    Except String (List ℚ) := do
  let r ← getE A.rowval i
  let v ← getE A.nzval i
  let xj ← getE x j
  let yr ← getE y r
  let contrib := if a = 1 then v * xj else if a = -1 then -(v * xj) else a * v * xj
  setE y r (yr + contrib)

/-- Embedding of _csc_axpby_N: the b-term first, early return when a = 0,
then the assertions on nzval length (against the unwrapped last column
pointer) and on x length against A.n, then the column loop accumulating
y[rowval[i]] += a * nzval[i] * x[j]. -/
def _csc_axpby_N (A : CscMatrix) (y x : List ℚ) (a b : ℚ) :
    Except String (List ℚ) := do
  let y := scaleBy b y
  if a = 0 then return y
  let last ← match A.colptr.getLast? with
    | some v => Except.ok v
    | none => Except.error "unwrap of last column pointer on empty colptr"
  if A.nzval.length ≠ last then throw "assertion failed: nzval length"
  if x.length ≠ A.n then throw "assertion failed: x length"
  (List.range A.n).foldlM (fun y j => do
    let c0 ← getE A.colptr j
    let c1 ← getE A.colptr (j + 1)
    (List.range' c0 (c1 - c0)).foldlM (accumN A x a j) y) y

/-- The single-entry accumulation of the transpose kernel: x is read at the
row index of the entry and the result accumulates into y[j]. -/
def accumT (A : CscMatrix) (x : List ℚ) (a : ℚ) (j : ℕ) (y : List ℚ) (k : ℕ) :
    Except String (List ℚ) := do
  let r ← getE A.rowval k
  let v ← getE A.nzval k
  let xr ← getE x r
  let yj ← getE y j
  let contrib := if a = 1 then v * xr else if a = -1 then -(v * xr) else a * v * xr
  setE y j (yj + contrib)

/-- Embedding of _csc_axpby_T, kept faithful to the source: after the b-term
and the a = 0 early return, it asserts the nzval length and then asserts
x.length = A.n (the source compares x against A.n here as well, although the
transpose operand dimension is A.m and the loop reads x at row indices),
then loops computing y[j] += a * nzval[k] * x[rowval[k]]. -/
def _csc_axpby_T (A : CscMatrix) (y x : List ℚ) (a b : ℚ) :
    Except String (List ℚ) := do
  let y := scaleBy b y
  if a = 0 then return y
  let last ← match A.colptr.getLast? with
    | some v => Except.ok v
    | none => Except.error "unwrap of last column pointer on empty colptr"
  if A.nzval.length ≠ last then throw "assertion failed: nzval length"
  if x.length ≠ A.n then throw "assertion failed: x length"
  (List.range A.n).foldlM (fun y j => do
    let c0 ← getE A.colptr j
    let c1 ← getE A.colptr (j + 1)
    (List.range' c0 (c1 - c0)).foldlM (accumT A x a j) y) y

/-- Embedding of gemv: dispatch on the orientation. -/
def gemv (A : CscMatrix) (y : List ℚ) (trans : MatrixShape) (x : List ℚ)
    (a b : ℚ) : Except String (List ℚ) :=
  match trans with
  | MatrixShape.N => _csc_axpby_N A y x a b
  | MatrixShape.T => _csc_axpby_T A y x a b

/-! ### Cone descriptors (src/solver/core/cones/compositecone.rs) -/

/-- The SupportedCone descriptor enum; the scalar parameter of the hidden
placeholder variant is modelled as a rational. -/
inductive SupportedCone where
  | ZeroConeT (dim : ℕ)
  | NonnegativeConeT (dim : ℕ)
  | SecondOrderConeT (dim : ℕ)
  | ExponentialConeT
  | PlaceHolderT (dim : ℕ) (exponent : ℚ)
deriving DecidableEq

/-- Embedding of variant_name (note the source renders the placeholder
variant as PlaceHolderConeT). -/
def SupportedCone.variant_name : SupportedCone → String
  | SupportedCone.ZeroConeT _ => "ZeroConeT"
  | SupportedCone.NonnegativeConeT _ => "NonnegativeConeT"
  | SupportedCone.SecondOrderConeT _ => "SecondOrderConeT"
  | SupportedCone.ExponentialConeT => "ExponentialConeT"
  | SupportedCone.PlaceHolderT _ _ => "PlaceHolderConeT"

/-- Embedding of nvars: the slack dimension contributed by a descriptor,
3 for the exponential cone by fixed definition. -/
def SupportedCone.nvars : SupportedCone → ℕ
  | SupportedCone.ZeroConeT dim => dim
  | SupportedCone.NonnegativeConeT dim => dim
  | SupportedCone.SecondOrderConeT dim => dim
  | SupportedCone.ExponentialConeT => 3
  | SupportedCone.PlaceHolderT dim _ => dim

/-- The bare variant tag of a descriptor, modelling std::mem::discriminant. -/
inductive ConeKind where
  | zero : ConeKind
  | nonnegative : ConeKind
  | secondOrder : ConeKind
  | exponential : ConeKind
  | placeHolder : ConeKind
deriving DecidableEq

/-- Discriminant extraction used by the PartialEq and Hash impls. -/
def SupportedCone.discriminant : SupportedCone → ConeKind
  | SupportedCone.ZeroConeT _ => ConeKind.zero
  | SupportedCone.NonnegativeConeT _ => ConeKind.nonnegative
  | SupportedCone.SecondOrderConeT _ => ConeKind.secondOrder
  | SupportedCone.ExponentialConeT => ConeKind.exponential
  | SupportedCone.PlaceHolderT _ _ => ConeKind.placeHolder

/-- Embedding of the PartialEq impl: two descriptors are equal exactly when
their discriminants coincide, the parameters are ignored. -/
def SupportedCone.eq (a b : SupportedCone) : Bool :=
  decide (a.discriminant = b.discriminant)

/-- A fixed numeric tag per variant, standing for the opaque hasher state
after feeding the discriminant. -/
def ConeKind.tag : ConeKind → ℕ
  | ConeKind.zero => 0
  | ConeKind.nonnegative => 1
  | ConeKind.secondOrder => 2
  | ConeKind.exponential => 3
  | ConeKind.placeHolder => 4

/-- Embedding of the Hash impl: only the discriminant is hashed, so the
hash of a descriptor is a function of its variant tag alone. -/
def SupportedCone.hash (a : SupportedCone) : ℕ :=
  a.discriminant.tag

/-! ### Member cone objects and the composite cone -/

/-- The settings object is forwarded opaquely by the composite; none of the
claims depend on its contents. -/
def CoreSettings : Type := Unit

/-- Model of one constructed member cone: the capability-contract fields the
composite dispatcher reads. The step_length field carries the full member
signature (dz, ds, z, s, settings, running bound) returning a pair of step
lengths. -/
structure ConeM where
  numel : ℕ
  degree : ℕ
  is_symmetric : Bool
  Hs_is_diagonal : Bool
  step_length : List ℚ → List ℚ → List ℚ → List ℚ → CoreSettings → ℚ → ℚ × ℚ

/-- Modelled from the spec: the concrete ZeroCone implementation is outside
the given sources. Its size is the descriptor dimension (nvars), it is
symmetric with a diagonal Hessian block; the barrier degree and the concrete
step-length mathematics are external to the spec, so the degree is zero and
the step length returns the unconstrained bound. -/
def ZeroCone.new (dim : ℕ) : ConeM :=
  ⟨dim, 0, true, true, fun _ _ _ _ _ α => (α, α)⟩

/-- Modelled from the spec: the concrete NonnegativeCone implementation is
outside the given sources; symmetric, diagonal Hessian block, size = dim;
degree and step-length mathematics are external, modelled as dim and the
unconstrained bound. -/
def NonnegativeCone.new (dim : ℕ) : ConeM :=
  ⟨dim, dim, true, true, fun _ _ _ _ _ α => (α, α)⟩

/-- Modelled from the spec: the concrete SecondOrderCone implementation is
outside the given sources; symmetric, size = dim; degree and the Hessian
block shape and step-length mathematics are external, modelled as degree 1,
a diagonal block and the unconstrained bound. -/
def SecondOrderCone.new (dim : ℕ) : ConeM :=
  ⟨dim, 1, true, true, fun _ _ _ _ _ α => (α, α)⟩

/-- Modelled from the spec: the concrete ExponentialCone implementation is
outside the given sources; it is nonsymmetric with ambient dimension 3 by
fixed definition; degree, block shape and step-length mathematics are
external, modelled as degree 3, a dense block and the unconstrained bound. -/
def ExponentialCone.new : ConeM :=
  ⟨3, 3, false, false, fun _ _ _ _ _ α => (α, α)⟩

/-- Embedding of make_cone: the factory matching on the descriptor kind; the
placeholder kind aborts with unsupported-operation, modelled as an error. -/
def make_cone : SupportedCone → Except String ConeM
  | SupportedCone.NonnegativeConeT dim => Except.ok (NonnegativeCone.new dim)
  | SupportedCone.ZeroConeT dim => Except.ok (ZeroCone.new dim)
  | SupportedCone.SecondOrderConeT dim => Except.ok (SecondOrderCone.new dim)
  | SupportedCone.ExponentialConeT => Except.ok ExponentialCone.new
  | SupportedCone.PlaceHolderT _ _ => Except.error "unimplemented cone kind"

/-- The composite cone record; type_counts is not stored because the stored
HashMap of the source is an index of the types list, recomputed here by the
type_count method. -/
structure CompositeCone where
  cones : List ConeM
  types : List SupportedCone
  numel : ℕ
  degree : ℕ
  rng_cones : List (ℕ × ℕ)
  rng_blocks : List (ℕ × ℕ)
  _is_symmetric : Bool

/-- Embedding of _make_rng_cones: consecutive ranges, each of the width of
the member cone, threaded through a running start. -/
def _make_rng_cones (start : ℕ) : List ConeM → List (ℕ × ℕ)
  | [] => []
  | c :: rest => (start, start + c.numel) :: _make_rng_cones (start + c.numel) rest

/-- Embedding of _make_rng_blocks: the block width is the ambient dimension
for a diagonal Hessian block and the packed triangle count n(n+1)/2
(the source shifts right by one) otherwise. -/
def _make_rng_blocks (start : ℕ) : List ConeM → List (ℕ × ℕ)
  | [] => []
  | c :: rest =>
    let nvars := c.numel
    let width := if c.Hs_is_diagonal then nvars else (nvars * (nvars + 1)) / 2
    (start, start + width) :: _make_rng_blocks (start + width) rest

/-- Whether a descriptor makes the composite nonsymmetric (the matches!
test of the constructor loop). -/
def SupportedCone.isNonSymDescr : SupportedCone → Bool
  | SupportedCone.ExponentialConeT => true
  | SupportedCone.PlaceHolderT _ _ => true
  | _ => false

/-- Embedding of CompositeCone::new: instantiate every member through
make_cone (an unimplemented kind aborts construction), fold the symmetry
flag over the descriptors, sum numel and degree over the members, and build
both range partitions from zero. -/
def CompositeCone.new (types : List SupportedCone) : Except String CompositeCone := do
  let cones ← types.mapM make_cone
  let _is_symmetric := types.foldl (fun acc t => acc && !t.isNonSymDescr) true
  let numel := (cones.map ConeM.numel).sum
  let degree := (cones.map ConeM.degree).sum
  Except.ok ⟨cones, types, numel, degree,
    _make_rng_cones 0 cones, _make_rng_blocks 0 cones, _is_symmetric⟩

/-- Embedding of the is_symmetric method: returns the cached flag. -/
def CompositeCone.is_symmetric (c : CompositeCone) : Bool :=
  c._is_symmetric

/-- Embedding of CompositeCone::dim, which aborts unconditionally: an error
value for every composite, never a number. -/
def CompositeCone.dim (_ : CompositeCone) : Except String ℕ :=
  Except.error "dim() not well defined for the CompositeCone"

/-- Embedding of the type_count method backed by the constructor-built
occurrence map: the number of descriptors whose variant name matches,
zero for an absent kind. -/
def CompositeCone.type_count (c : CompositeCone) (s : String) : ℕ :=
  c.types.countP (fun t => t.variant_name == s)

/-- Slicing a global buffer by an index range, the z[rng.clone()] pattern. -/
def sliceL (v : List ℚ) (rng : ℕ × ℕ) : List ℚ :=
  (v.drop rng.1).take (rng.2 - rng.1)

/-- One pass of the composite step-length loop: members whose symmetry flag
matches wantSym are consulted with the current running bound and the bound
is tightened by the minimum with both returned step lengths; the others are
skipped. -/
def stepPhase (wantSym : Bool) (dz ds z s : List ℚ) (st : CoreSettings)
    (pairs : List (ConeM × (ℕ × ℕ))) (α0 : ℚ) : ℚ :=
  pairs.foldl (fun α cr =>
    if cr.1.is_symmetric == wantSym then
      let p := cr.1.step_length (sliceL dz cr.2) (sliceL ds cr.2)
        (sliceL z cr.2) (sliceL s cr.2) st α
      min α (min p.1 p.2)
    else α) α0

/-- Embedding of CompositeCone::step_length: symmetric members first from
the caller bound, then the 0.99 ceiling when the composite is not globally
symmetric, then the nonsymmetric members from the tightened bound; the same
scalar is returned for both components. -/
def CompositeCone.step_length (c : CompositeCone) (dz ds z s : List ℚ)
    (st : CoreSettings) (αmax : ℚ) : ℚ × ℚ :=
  let pairs := c.cones.zip c.rng_cones
  let α1 := stepPhase true dz ds z s st pairs αmax
  let α2 := if !c.is_symmetric then min (99 / 100 : ℚ) α1 else α1
  let α3 := stepPhase false dz ds z s st pairs α2
  (α3, α3)

/-- Range-chain check: some final index exactly when every range starts
where the previous one stopped (beginning at the given start) and has a
non-negative width; a successful chain from 0 to the total size is the
non-overlapping gap-free partition property. -/
def chainFrom : ℕ → List (ℕ × ℕ) → Option ℕ
  | s, [] => some s
  | s, r :: rest => if r.1 = s ∧ s ≤ r.2 then chainFrom r.2 rest else none

/-- A default composite used only to read back construction results that
are known to succeed. -/
def dfltCC : CompositeCone :=
  ⟨[], [], 0, 0, [], [], true⟩

/-- The composite built from the empty descriptor list. -/
def emptyComposite : CompositeCone :=
  ⟨[], [], 0, 0, [], [], true⟩

/-- The 1 by 2 matrix with a single nonzero entry 2 in position (0, 0),
exercising the transpose kernel on a matrix with more columns than rows. -/
def Amat : CscMatrix :=
  ⟨1, 2, [0, 1, 1], [0], [2]⟩

/-- The descriptor list of the worked example of the spec. -/
def exTypes : List SupportedCone :=
  [SupportedCone.ZeroConeT 2, SupportedCone.NonnegativeConeT 3]

/-- The composite built from the worked example descriptor list. -/
def cC2 : CompositeCone :=
  (CompositeCone.new exTypes).toOption.getD dfltCC

/-- A composite holding one symmetric and one nonsymmetric member, used to
exercise the step-length protocol at a concrete input. -/
def cC1 : CompositeCone :=
  (CompositeCone.new
    [SupportedCone.NonnegativeConeT 2, SupportedCone.ExponentialConeT]).toOption.getD dfltCC

/-! ### Theorems -/

/-- C9: invoking dim() on any composite cone fails loudly with a
contract-violation abort and returns no value; callers must use numel(). -/
theorem composite_dim_aborts (c : CompositeCone) :
    c.dim = Except.error "dim() not well defined for the CompositeCone" ∧
    c.dim.isOk = false :=
  ⟨rfl, rfl⟩

/-- C10: the composite built from the empty descriptor list constructs
successfully, with numel 0, degree 0, symmetric flag true, empty cone and
block range sequences, and a step_length that returns the caller bound
unchanged in both components. -/
theorem empty_composite_construction :
    CompositeCone.new [] = Except.ok emptyComposite ∧
    emptyComposite.numel = 0 ∧
    emptyComposite.degree = 0 ∧
    emptyComposite.is_symmetric = true ∧
    emptyComposite.cones = [] ∧
    emptyComposite.rng_cones = [] ∧
    emptyComposite.rng_blocks = [] ∧
    ∀ (dz ds z s : List ℚ) (st : CoreSettings) (αmax : ℚ),
      emptyComposite.step_length dz ds z s st αmax = (αmax, αmax) :=
  ⟨rfl, rfl, rfl, rfl, rfl, rfl, rfl, fun _ _ _ _ _ _ => rfl⟩

/-- C3 (code evaluated at the failing input): the transpose kernel checks
the length of x against the column count A.n instead of the transpose
operand dimension A.m. On the 1 by 2 matrix Amat with a = 1, b = 0, the
vector x = [5, 7] of length 2 (equal to n but different from m = 1) is
accepted and a result is computed, while the correct length-1 vector
x = [5] is rejected by the length assertion. -/
theorem csc_axpby_T_wrong_length_check :
    gemv Amat [0, 0] MatrixShape.T [5, 7] 1 0 = Except.ok [10, 0] ∧
    (gemv Amat [0, 0] MatrixShape.T [5] 1 0).isOk = false ∧
    (gemv Amat [0] MatrixShape.N [5, 7] 1 0).isOk = true := by
  refine ⟨?_, rfl, rfl⟩
  have h1 : gemv Amat [0, 0] MatrixShape.T [5, 7] 1 0 =
      Except.ok [0 + 2 * 5, 0] := rfl
  rw [h1]
  norm_num

/-- C4 (counterexample): dot and hadamard on buffers of differing lengths
do not fail; they compute a result over the zipped common prefix. -/
theorem vector_length_mismatch_counterexample :
    dot [1] [1, 2] = Except.ok 1 ∧
    hadamard [1] [2, 3] = Except.ok [2] := by
  constructor
  · have h1 : dot [1] [1, 2] = Except.ok (0 + 1 * 1) := rfl
    rw [h1]
    norm_num
  · simp [hadamard]

/-- C4 (amended): of the paired-buffer vector operations, norm_scaled,
axpby and waxpby abort with a precondition violation on differing lengths,
while hadamard and dot perform no length check and return a result computed
over the common prefix of the zipped operands. -/
theorem vector_length_mismatch_amended (x y w : List ℚ) (a b : ℚ)
    (h : x.length ≠ y.length) :
    (norm_scaled x y).isOk = false ∧
    (axpby x a y b).isOk = false ∧
    (waxpby w a x b y).isOk = false ∧
    (dot x y).isOk = true ∧
    (hadamard x y).isOk = true := by
  refine ⟨?_, ?_, ?_, rfl, rfl⟩
  · simp [norm_scaled, h, Except.isOk, Except.toBool]
  · simp [axpby, h, Except.isOk, Except.toBool]
  · by_cases hwx : w.length = x.length
    · simp [waxpby, hwx, h, Except.isOk, Except.toBool]
    · simp [waxpby, hwx, Except.isOk, Except.toBool]

/-- Witness for the amended C4 at a concrete mismatched pair. -/
theorem vector_length_mismatch_amended_witness :
    ([(1 : ℚ)].length ≠ [(1 : ℚ), 2].length) ∧
    ((norm_scaled [1] [1, 2]).isOk = false ∧
     (axpby [1] 2 [1, 2] 3).isOk = false ∧
     (waxpby [] 2 [1] 3 [1, 2]).isOk = false ∧
     (dot [1] [1, 2]).isOk = true ∧
     (hadamard [1] [1, 2]).isOk = true) :=
  ⟨by decide, vector_length_mismatch_amended [1] [1, 2] [] 2 3 (by decide)⟩

/-- C5: for equal-length buffers, waxpby writes the elementwise product
a * x[i] * b * y[i] into w at every index. -/
theorem waxpby_elementwise_product (w x y : List ℚ) (a b : ℚ)
    (hwx : w.length = x.length) (hwy : w.length = y.length) :
    waxpby w a x b y =
      Except.ok (List.zipWith (fun u v => a * u * b * v) x y) ∧
    ∀ (i : ℕ) (xv yv : ℚ), x.get? i = some xv → y.get? i = some yv →
      (List.zipWith (fun u v => a * u * b * v) x y).get? i =
        some (a * xv * b * yv) := by
  have hxy : x.length = y.length := by omega
  constructor
  · simp [waxpby, hwx, hwy, hxy]
  · intro i xv yv hx hy
    rw [List.get?_zipWith_eq_some]
    exact ⟨xv, yv, hx, hy, rfl⟩

/-- Witness for C5 at concrete buffers. -/
theorem waxpby_elementwise_product_witness :
    (([(0 : ℚ), 0].length = [(1 : ℚ), 2].length) ∧
     ([(0 : ℚ), 0].length = [(3 : ℚ), 4].length)) ∧
    (waxpby [0, 0] 5 [1, 2] 7 [3, 4] =
      Except.ok (List.zipWith (fun u v => 5 * u * 7 * v) [1, 2] [3, 4]) ∧
    ∀ (i : ℕ) (xv yv : ℚ),
      ([(1 : ℚ), 2]).get? i = some xv → ([(3 : ℚ), 4]).get? i = some yv →
      (List.zipWith (fun u v => 5 * u * 7 * v) [(1 : ℚ), 2] [(3 : ℚ), 4]).get? i =
        some (5 * xv * 7 * yv)) :=
  ⟨⟨by decide, by decide⟩,
    waxpby_elementwise_product [0, 0] [1, 2] [3, 4] 5 7 (by decide) (by decide)⟩

/-- The running bound of a step-length pass never increases: every visited
member tightens it by a minimum and every skipped member leaves it alone. -/
theorem stepPhase_le (wantSym : Bool) (dz ds z s : List ℚ) (st : CoreSettings)
    (pairs : List (ConeM × (ℕ × ℕ))) :
    ∀ α0 : ℚ, stepPhase wantSym dz ds z s st pairs α0 ≤ α0 := by
  induction pairs with
  | nil => intro α0; exact le_refl α0
  | cons cr rest ih =>
    intro α0
    have hcons : stepPhase wantSym dz ds z s st (cr :: rest) α0 =
        stepPhase wantSym dz ds z s st rest
          (if cr.1.is_symmetric == wantSym then
            min α0 (min (cr.1.step_length (sliceL dz cr.2) (sliceL ds cr.2)
              (sliceL z cr.2) (sliceL s cr.2) st α0).1
              ((cr.1.step_length (sliceL dz cr.2) (sliceL ds cr.2)
              (sliceL z cr.2) (sliceL s cr.2) st α0).2))
          else α0) := rfl
    rw [hcons]
    refine le_trans (ih _) ?_
    by_cases hc : cr.1.is_symmetric == wantSym
    · rw [if_pos hc]; exact min_le_left _ _
    · rw [if_neg hc]

/-- The step-length bounds, stated for any composite whose cached symmetry
flag is false whenever some member is nonsymmetric. -/
theorem step_length_bounds_aux (c : CompositeCone) (dz ds z s : List ℚ)
    (st : CoreSettings) (αmax : ℚ)
    (hflag : (∃ cm ∈ c.cones, cm.is_symmetric = false) → c._is_symmetric = false) :
    (c.step_length dz ds z s st αmax).1 = (c.step_length dz ds z s st αmax).2 ∧
    (c.step_length dz ds z s st αmax).1 ≤ αmax ∧
    ((∃ cm ∈ c.cones, cm.is_symmetric = false) →
      (c.step_length dz ds z s st αmax).1 ≤ 99 / 100) := by
  refine ⟨rfl, ?_, ?_⟩
  · show stepPhase false dz ds z s st (c.cones.zip c.rng_cones)
      (if !c.is_symmetric then
        min (99 / 100 : ℚ) (stepPhase true dz ds z s st (c.cones.zip c.rng_cones) αmax)
      else stepPhase true dz ds z s st (c.cones.zip c.rng_cones) αmax) ≤ αmax
    refine le_trans (stepPhase_le _ _ _ _ _ _ _ _) ?_
    by_cases hs : !c.is_symmetric
    · rw [if_pos hs]
      exact le_trans (min_le_right _ _) (stepPhase_le _ _ _ _ _ _ _ _)
    · rw [if_neg hs]
      exact stepPhase_le _ _ _ _ _ _ _ _
  · intro hex
    have hfalse : c._is_symmetric = false := hflag hex
    show stepPhase false dz ds z s st (c.cones.zip c.rng_cones)
      (if !c.is_symmetric then
        min (99 / 100 : ℚ) (stepPhase true dz ds z s st (c.cones.zip c.rng_cones) αmax)
      else stepPhase true dz ds z s st (c.cones.zip c.rng_cones) αmax) ≤ 99 / 100
    have hb : (!c.is_symmetric) = true := by
      simp [CompositeCone.is_symmetric, hfalse]
    rw [if_pos hb]
    exact le_trans (stepPhase_le _ _ _ _ _ _ _ _) (min_le_left _ _)

/-- Inversion of a successful composite construction: the members come from
make_cone over the descriptors and every derived field is as built. -/
theorem new_inv (types : List SupportedCone) (c : CompositeCone)
    (h : CompositeCone.new types = Except.ok c) :
    ∃ cones, types.mapM make_cone = Except.ok cones ∧
      c = ⟨cones, types, (cones.map ConeM.numel).sum, (cones.map ConeM.degree).sum,
        _make_rng_cones 0 cones, _make_rng_blocks 0 cones,
        types.foldl (fun acc t => acc && !t.isNonSymDescr) true⟩ := by
  have hnew : CompositeCone.new types =
      Except.bind (types.mapM make_cone) (fun cones => Except.ok
        ⟨cones, types, (cones.map ConeM.numel).sum, (cones.map ConeM.degree).sum,
          _make_rng_cones 0 cones, _make_rng_blocks 0 cones,
          types.foldl (fun acc t => acc && !t.isNonSymDescr) true⟩) := rfl
  rw [hnew] at h
  cases hm : types.mapM make_cone with
  | error e =>
    rw [hm] at h
    exact absurd h (by simp [Except.bind])
  | ok cones =>
    rw [hm] at h
    simp only [Except.bind] at h
    injection h with h2
    exact ⟨cones, rfl, h2.symm⟩

/-- A cone built by the factory carries the symmetry attribute of its
descriptor kind. -/
theorem make_cone_is_symmetric (t : SupportedCone) (cm : ConeM)
    (h : make_cone t = Except.ok cm) : cm.is_symmetric = !t.isNonSymDescr := by
  cases t with
  | ZeroConeT d => simp [make_cone] at h; rw [← h]; rfl
  | NonnegativeConeT d => simp [make_cone] at h; rw [← h]; rfl
  | SecondOrderConeT d => simp [make_cone] at h; rw [← h]; rfl
  | ExponentialConeT => simp [make_cone] at h; rw [← h]; rfl
  | PlaceHolderT d e => simp [make_cone] at h

/-- A successful mapM of the factory relates descriptors and members
pointwise. -/
theorem mapM_make_cone_forall2 (types : List SupportedCone) :
    ∀ cones : List ConeM, types.mapM make_cone = Except.ok cones →
      List.Forall₂ (fun t cm => make_cone t = Except.ok cm) types cones := by
  induction types with
  | nil =>
    intro cones h
    have h0 : (Except.ok [] : Except String (List ConeM)) = Except.ok cones := h
    injection h0 with h1
    rw [← h1]
    exact List.Forall₂.nil
  | cons t ts ih =>
    intro cones h
    rw [List.mapM_cons] at h
    cases hm : make_cone t with
    | error e =>
      rw [hm] at h
      have h0 : (Except.error e : Except String (List ConeM)) = Except.ok cones := h
      exact Except.noConfusion h0
    | ok cm =>
      rw [hm] at h
      cases hms : ts.mapM make_cone with
      | error e =>
        rw [hms] at h
        have h0 : (Except.error e : Except String (List ConeM)) = Except.ok cones := h
        exact Except.noConfusion h0
      | ok cms =>
        rw [hms] at h
        have h0 : (Except.ok (cm :: cms) : Except String (List ConeM)) =
          Except.ok cones := h
        injection h0 with h1
        rw [← h1]
        exact List.Forall₂.cons hm (ih cms hms)

/-- An and-fold that ends true started true. -/
theorem foldl_and_seed (ts : List SupportedCone) :
    ∀ acc : Bool,
      ts.foldl (fun acc t => acc && !t.isNonSymDescr) acc = true → acc = true := by
  induction ts with
  | nil => intro acc h; exact h
  | cons u rest ih =>
    intro acc h
    have h2 := ih (acc && !u.isNonSymDescr) h
    exact (Bool.and_eq_true _ _).mp h2 |>.1

/-- An and-fold of the symmetry tests that ends true certifies every
descriptor symmetric. -/
theorem foldl_and_true (ts : List SupportedCone) :
    ∀ acc : Bool,
      ts.foldl (fun acc t => acc && !t.isNonSymDescr) acc = true →
      ∀ t ∈ ts, t.isNonSymDescr = false := by
  induction ts with
  | nil => intro acc h t ht; exact absurd ht (List.not_mem_nil t)
  | cons u rest ih =>
    intro acc h t ht
    rcases List.mem_cons.mp ht with h1 | h1
    · subst h1
      have h2 := foldl_and_seed rest (acc && !t.isNonSymDescr) h
      have h3 := (Bool.and_eq_true _ _).mp h2 |>.2
      cases hb : t.isNonSymDescr with
      | false => rfl
      | true => rw [hb] at h3; exact Bool.noConfusion h3
    · exact ih (acc && !u.isNonSymDescr) h t h1

/-- Every right member of a Forall₂ is related to some left member. -/
theorem forall2_mem_right {R : SupportedCone → ConeM → Prop}
    {l1 : List SupportedCone} {l2 : List ConeM} (hf : List.Forall₂ R l1 l2) :
    ∀ cm ∈ l2, ∃ t ∈ l1, R t cm := by
  induction hf with
  | nil => intro cm hcm; exact absurd hcm (List.not_mem_nil cm)
  | cons hR hrest ih =>
    intro cm hcm
    rcases List.mem_cons.mp hcm with h1 | h1
    · subst h1
      exact ⟨_, List.mem_cons_self _ _, hR⟩
    · obtain ⟨t, ht, hRt⟩ := ih cm h1
      exact ⟨t, List.mem_cons_of_mem _ ht, hRt⟩

/-- Construction keeps the cached symmetry flag consistent with the
members: a composite holding a nonsymmetric member has the flag false. -/
theorem new_flag_consistent (types : List SupportedCone) (c : CompositeCone)
    (h : CompositeCone.new types = Except.ok c) :
    (∃ cm ∈ c.cones, cm.is_symmetric = false) → c._is_symmetric = false := by
  obtain ⟨cones, hm, hc⟩ := new_inv types c h
  subst hc
  rintro ⟨cm, hcm, hsym⟩
  by_contra hne
  have htrue : types.foldl (fun acc t => acc && !t.isNonSymDescr) true = true := by
    revert hne
    cases types.foldl (fun acc t => acc && !t.isNonSymDescr) true <;> simp
  have hall := foldl_and_true types true htrue
  obtain ⟨t, ht, hR⟩ := forall2_mem_right (mapM_make_cone_forall2 types cones hm) cm hcm
  have hs := make_cone_is_symmetric t cm hR
  rw [hsym, hall t ht] at hs
  exact Bool.noConfusion hs

/-- C1: for every composite built from a descriptor list, step_length
returns a pair with equal components, never exceeding the caller bound
αmax; the symmetric members are consulted first from αmax, then, when the
composite is not globally symmetric, the running bound is clamped to at
most 0.99 before the nonsymmetric members are consulted, so a composite
containing a nonsymmetric member returns at most 0.99. -/
theorem step_length_composite_bounds (types : List SupportedCone)
    (c : CompositeCone) (h : CompositeCone.new types = Except.ok c)
    (dz ds z s : List ℚ) (st : CoreSettings) (αmax : ℚ) :
    (c.step_length dz ds z s st αmax).1 = (c.step_length dz ds z s st αmax).2 ∧
    (c.step_length dz ds z s st αmax).1 ≤ αmax ∧
    ((∃ cm ∈ c.cones, cm.is_symmetric = false) →
      (c.step_length dz ds z s st αmax).1 ≤ 99 / 100) :=
  step_length_bounds_aux c dz ds z s st αmax (new_flag_consistent types c h)

/-- Witness for C1 on a composite with one symmetric and one nonsymmetric
member at a concrete input. -/
theorem step_length_composite_bounds_witness :
    (CompositeCone.new
      [SupportedCone.NonnegativeConeT 2, SupportedCone.ExponentialConeT] =
      Except.ok cC1) ∧
    ((cC1.step_length [1, 2, 3, 4, 5] [1, 2, 3, 4, 5] [1, 2, 3, 4, 5]
        [1, 2, 3, 4, 5] () 2).1 =
      (cC1.step_length [1, 2, 3, 4, 5] [1, 2, 3, 4, 5] [1, 2, 3, 4, 5]
        [1, 2, 3, 4, 5] () 2).2 ∧
    (cC1.step_length [1, 2, 3, 4, 5] [1, 2, 3, 4, 5] [1, 2, 3, 4, 5]
        [1, 2, 3, 4, 5] () 2).1 ≤ 2 ∧
    ((∃ cm ∈ cC1.cones, cm.is_symmetric = false) →
      (cC1.step_length [1, 2, 3, 4, 5] [1, 2, 3, 4, 5] [1, 2, 3, 4, 5]
        [1, 2, 3, 4, 5] () 2).1 ≤ 99 / 100)) :=
  ⟨rfl,
    step_length_composite_bounds
      [SupportedCone.NonnegativeConeT 2, SupportedCone.ExponentialConeT] cC1 rfl
      [1, 2, 3, 4, 5] [1, 2, 3, 4, 5] [1, 2, 3, 4, 5] [1, 2, 3, 4, 5] () 2⟩

/-- The cone range list has one range per member. -/
theorem make_rng_cones_length (l : List ConeM) :
    ∀ s : ℕ, (_make_rng_cones s l).length = l.length := by
  induction l with
  | nil => intro s; rfl
  | cons cm rest ih =>
    intro s
    show (_make_rng_cones (s + cm.numel) rest).length + 1 = rest.length + 1
    rw [ih]

/-- The cone ranges chain consecutively from the given start to the start
plus the total member size. -/
theorem chainFrom_make_rng_cones (l : List ConeM) :
    ∀ s : ℕ, chainFrom s (_make_rng_cones s l) = some (s + (l.map ConeM.numel).sum) := by
  induction l with
  | nil => intro s; simp [chainFrom, _make_rng_cones]
  | cons cm rest ih =>
    intro s
    show chainFrom s ((s, s + cm.numel) :: _make_rng_cones (s + cm.numel) rest) = _
    rw [chainFrom]
    rw [if_pos ⟨rfl, Nat.le_add_right s cm.numel⟩]
    rw [ih (s + cm.numel)]
    simp [Nat.add_assoc]

/-- Each cone range has exactly the width of its member. -/
theorem forall2_make_rng_cones (l : List ConeM) :
    ∀ s : ℕ, List.Forall₂ (fun cm r => r.2 = r.1 + cm.numel) l (_make_rng_cones s l) := by
  induction l with
  | nil => intro s; exact List.Forall₂.nil
  | cons cm rest ih =>
    intro s
    exact List.Forall₂.cons rfl (ih (s + cm.numel))

/-- C2: a successfully constructed composite has numel equal to the sum of
its member sizes, and its cone ranges are one per member, consecutive and
gap-free from 0 to numel with widths equal to the member sizes; on the
worked example [Zero(2), Nonnegative(3)] the composite has numel 5, ranges
[0..2, 2..5], kind counts Zero: 1 and Nonnegative: 1, and is symmetric. -/
theorem composite_new_partition (types : List SupportedCone) (c : CompositeCone)
    (h : CompositeCone.new types = Except.ok c) :
    c.numel = (c.cones.map ConeM.numel).sum ∧
    c.rng_cones.length = c.cones.length ∧
    chainFrom 0 c.rng_cones = some c.numel ∧
    List.Forall₂ (fun cm r => r.2 = r.1 + cm.numel) c.cones c.rng_cones ∧
    cC2.numel = 5 ∧
    cC2.rng_cones = [(0, 2), (2, 5)] ∧
    cC2.type_count "ZeroConeT" = 1 ∧
    cC2.type_count "NonnegativeConeT" = 1 ∧
    cC2.is_symmetric = true := by
  have hnew : CompositeCone.new types =
      Except.bind (types.mapM make_cone) (fun cones => Except.ok
        ⟨cones, types, (cones.map ConeM.numel).sum, (cones.map ConeM.degree).sum,
          _make_rng_cones 0 cones, _make_rng_blocks 0 cones,
          types.foldl (fun acc t => acc && !t.isNonSymDescr) true⟩) := rfl
  rw [hnew] at h
  cases hm : types.mapM make_cone with
  | error e => rw [hm] at h; exact absurd h (by simp [Except.bind])
  | ok cones =>
    rw [hm] at h
    simp only [Except.bind] at h
    have hc : c = ⟨cones, types, (cones.map ConeM.numel).sum,
        (cones.map ConeM.degree).sum, _make_rng_cones 0 cones,
        _make_rng_blocks 0 cones,
        types.foldl (fun acc t => acc && !t.isNonSymDescr) true⟩ := by
      injection h with h2
      exact h2.symm
    subst hc
    refine ⟨rfl, make_rng_cones_length cones 0, ?_, forall2_make_rng_cones cones 0,
      by decide, by decide, by decide, by decide, by decide⟩
    have := chainFrom_make_rng_cones cones 0
    simpa using this

/-- Witness for C2 on the worked example descriptor list. -/
theorem composite_new_partition_witness :
    (CompositeCone.new exTypes = Except.ok cC2) ∧
    (cC2.numel = (cC2.cones.map ConeM.numel).sum ∧
    cC2.rng_cones.length = cC2.cones.length ∧
    chainFrom 0 cC2.rng_cones = some cC2.numel ∧
    List.Forall₂ (fun cm r => r.2 = r.1 + cm.numel) cC2.cones cC2.rng_cones ∧
    cC2.numel = 5 ∧
    cC2.rng_cones = [(0, 2), (2, 5)] ∧
    cC2.type_count "ZeroConeT" = 1 ∧
    cC2.type_count "NonnegativeConeT" = 1 ∧
    cC2.is_symmetric = true) :=
  ⟨rfl, composite_new_partition exTypes cC2 rfl⟩

/-- Unfolding step of the max fold. -/
theorem maximumFrom_cons (acc : WithTop ℚ) (s : ℚ) (rest : List ℚ) :
    maximumFrom acc (s :: rest) = maximumFrom (max acc (s : WithTop ℚ)) rest := rfl

/-- Unfolding step of the min fold. -/
theorem minimumFrom_cons (acc : WithTop ℚ) (s : ℚ) (rest : List ℚ) :
    minimumFrom acc (s :: rest) = minimumFrom (min acc (s : WithTop ℚ)) rest := rfl

/-- A max fold over WithTop starting at the top element stays there. -/
theorem maximumFrom_top (l : List ℚ) : maximumFrom ⊤ l = ⊤ := by
  induction l with
  | nil => rfl
  | cons s rest ih =>
    rw [maximumFrom_cons, max_eq_left le_top]
    exact ih

/-- A min fold never exceeds its seed. -/
theorem minimumFrom_le_init (l : List ℚ) :
    ∀ acc : WithTop ℚ, minimumFrom acc l ≤ acc := by
  induction l with
  | nil => intro acc; exact le_refl acc
  | cons s rest ih =>
    intro acc
    rw [minimumFrom_cons]
    exact le_trans (ih (min acc (s : WithTop ℚ))) (min_le_left _ _)

/-- A min fold never exceeds any member of the list. -/
theorem minimumFrom_le_mem (l : List ℚ) :
    ∀ (acc : WithTop ℚ) (x : ℚ), x ∈ l → minimumFrom acc l ≤ (x : WithTop ℚ) := by
  induction l with
  | nil => intro acc x hx; exact absurd hx (List.not_mem_nil x)
  | cons s rest ih =>
    intro acc x hx
    rw [minimumFrom_cons]
    rcases List.mem_cons.mp hx with hx | hx
    · subst hx
      exact le_trans (minimumFrom_le_init rest _) (min_le_right _ _)
    · exact ih _ x hx

/-- A min fold either returns a member of the list or its seed. -/
theorem minimumFrom_attained (l : List ℚ) :
    ∀ acc : WithTop ℚ,
      (∃ m ∈ l, minimumFrom acc l = (m : WithTop ℚ)) ∨ minimumFrom acc l = acc := by
  induction l with
  | nil => intro acc; exact Or.inr rfl
  | cons s rest ih =>
    intro acc
    rw [minimumFrom_cons]
    rcases ih (min acc (s : WithTop ℚ)) with ⟨m, hm, he⟩ | he
    · exact Or.inl ⟨m, List.mem_cons_of_mem s hm, he⟩
    · rcases le_total acc (s : WithTop ℚ) with hle | hge
      · exact Or.inr (he.trans (min_eq_left hle))
      · exact Or.inl ⟨s, List.mem_cons_self s rest, he.trans (min_eq_right hge)⟩

/-- C6: maximum returns positive infinity unconditionally (its fold is
seeded from infinity and combines with max), whereas minimum, seeded from
the same infinity but combining with min, returns the least element of a
non-empty buffer. -/
theorem minimum_maximum_fold_seeds (l : List ℚ) :
    maximum l = ⊤ ∧
    (l ≠ [] → ∃ m : ℚ, minimum l = (m : WithTop ℚ) ∧ m ∈ l ∧ ∀ x ∈ l, m ≤ x) := by
  refine ⟨maximumFrom_top l, fun hne => ?_⟩
  rcases minimumFrom_attained l ⊤ with ⟨m, hm, he⟩ | he
  · refine ⟨m, he, hm, fun x hx => ?_⟩
    have h1 : minimum l ≤ (x : WithTop ℚ) := minimumFrom_le_mem l ⊤ x hx
    rw [show minimum l = minimumFrom ⊤ l from rfl, he] at h1
    exact_mod_cast h1
  · exfalso
    obtain ⟨y, l2, rfl⟩ := List.exists_cons_of_ne_nil hne
    have h1 : minimum (y :: l2) ≤ (y : WithTop ℚ) :=
      minimumFrom_le_mem (y :: l2) ⊤ y (List.mem_cons_self y l2)
    rw [show minimum (y :: l2) = minimumFrom ⊤ (y :: l2) from rfl, he] at h1
    exact lt_irrefl ⊤ (lt_of_le_of_lt h1 (WithTop.coe_lt_top y))

/-- Witness for C6 at a concrete non-empty buffer. -/
theorem minimum_maximum_fold_seeds_witness :
    ([(3 : ℚ), 1, 2] ≠ []) ∧
    (maximum [3, 1, 2] = ⊤ ∧
     ∃ m : ℚ, minimum [3, 1, 2] = (m : WithTop ℚ) ∧ m ∈ [(3 : ℚ), 1, 2] ∧
       ∀ x ∈ [(3 : ℚ), 1, 2], m ≤ x) :=
  ⟨by decide,
    ⟨(minimum_maximum_fold_seeds [3, 1, 2]).1,
     (minimum_maximum_fold_seeds [3, 1, 2]).2 (by decide)⟩⟩

/-- The NaN-aware comparison fold agrees with the clean max-of-absolutes
fold over the non-NaN entries, for every accumulator. -/
theorem norm_inf_from_eq_specMaxAbsFrom (l : List FV) :
    ∀ c : ℚ, norm_inf_from (FV.fin c) l = FV.fin (specMaxAbsFrom c l) := by
  induction l with
  | nil => intro c; rfl
  | cons v rest ih =>
    intro c
    cases v with
    | nan => exact ih c
    | fin q =>
      have key : (if FV.gt (FV.fin |q|) (FV.fin c) then FV.fin |q| else FV.fin c) =
          FV.fin (max c |q|) := by
        by_cases hq : c < |q|
        · simp [FV.gt, hq, max_eq_right (le_of_lt hq)]
        · simp [FV.gt, hq, max_eq_left (not_lt.mp hq)]
      calc norm_inf_from (FV.fin c) (FV.fin q :: rest)
          = norm_inf_from
              (if FV.gt (FV.fin |q|) (FV.fin c) then FV.fin |q| else FV.fin c) rest := rfl
        _ = norm_inf_from (FV.fin (max c |q|)) rest := by rw [key]
        _ = FV.fin (specMaxAbsFrom (max c |q|) rest) := ih (max c |q|)
        _ = FV.fin (specMaxAbsFrom c (FV.fin q :: rest)) := rfl

/-- The max-of-absolutes fold is at least its seed. -/
theorem specMaxAbsFrom_init_le (l : List FV) :
    ∀ c : ℚ, c ≤ specMaxAbsFrom c l := by
  induction l with
  | nil => intro c; exact le_refl c
  | cons v rest ih =>
    intro c
    cases v with
    | nan => exact ih c
    | fin q => exact le_trans (le_max_left c |q|) (ih (max c |q|))

/-- The max-of-absolutes fold bounds the absolute value of every finite
entry of the buffer. -/
theorem specMaxAbsFrom_mem_le (l : List FV) :
    ∀ (c q : ℚ), FV.fin q ∈ l → |q| ≤ specMaxAbsFrom c l := by
  induction l with
  | nil => intro c q hq; exact absurd hq (List.not_mem_nil _)
  | cons v rest ih =>
    intro c q hq
    rcases List.mem_cons.mp hq with h | h
    · rw [← h]
      exact le_trans (le_max_right c |q|) (specMaxAbsFrom_init_le rest (max c |q|))
    · cases v with
      | nan => exact ih c q h
      | fin p => exact ih (max c |p|) q h

/-- C7: norm_inf returns the maximum absolute value over the buffer while
silently skipping NaN entries (a comparison against NaN is false, so a NaN
never replaces the running value); in particular it maps
[3, -5, NaN, 2] to 5, and a buffer of only NaNs or an empty buffer to 0. -/
theorem norm_inf_skips_nan (l : List FV) :
    norm_inf l = FV.fin (specMaxAbsIgnoringNan l) ∧
    (∀ q : ℚ, FV.fin q ∈ l → |q| ≤ specMaxAbsIgnoringNan l) ∧
    0 ≤ specMaxAbsIgnoringNan l ∧
    norm_inf [FV.fin 3, FV.fin (-5), FV.nan, FV.fin 2] = FV.fin 5 ∧
    norm_inf [FV.nan, FV.nan] = FV.fin 0 ∧
    norm_inf ([] : List FV) = FV.fin 0 :=
  ⟨norm_inf_from_eq_specMaxAbsFrom l 0,
    fun q hq => specMaxAbsFrom_mem_le l 0 q hq,
    specMaxAbsFrom_init_le l 0,
    by decide, by decide, rfl⟩

/-- Witness for C7: the membership-bound part applied at a concrete buffer
and entry. -/
theorem norm_inf_skips_nan_witness :
    (FV.fin 3 ∈ [FV.fin 3, FV.nan]) ∧
    norm_inf [FV.fin 3, FV.nan] = FV.fin (specMaxAbsIgnoringNan [FV.fin 3, FV.nan]) ∧
    |(3 : ℚ)| ≤ specMaxAbsIgnoringNan [FV.fin 3, FV.nan] :=
  ⟨by decide, (norm_inf_skips_nan [FV.fin 3, FV.nan]).1,
    (norm_inf_skips_nan [FV.fin 3, FV.nan]).2.1 3 (by decide)⟩

/-- C8: descriptor equality and hashing depend only on the variant tag;
descriptors of the same kind compare equal and hash identically for all
parameter values, and descriptors of different kinds compare unequal. -/
theorem descriptor_eq_hash_kind_only (a b : SupportedCone) (d1 d2 : ℕ) :
    SupportedCone.eq (SupportedCone.ZeroConeT d1) (SupportedCone.ZeroConeT d2) = true ∧
    SupportedCone.eq (SupportedCone.NonnegativeConeT d1)
      (SupportedCone.NonnegativeConeT d2) = true ∧
    SupportedCone.eq (SupportedCone.SecondOrderConeT d1)
      (SupportedCone.SecondOrderConeT d2) = true ∧
    SupportedCone.hash (SupportedCone.ZeroConeT d1) =
      SupportedCone.hash (SupportedCone.ZeroConeT d2) ∧
    (a.discriminant = b.discriminant →
      SupportedCone.eq a b = true ∧ SupportedCone.hash a = SupportedCone.hash b) ∧
    (a.discriminant ≠ b.discriminant → SupportedCone.eq a b = false) := by
  refine ⟨rfl, rfl, rfl, rfl, fun h => ⟨?_, ?_⟩, fun h => ?_⟩
  · simp [SupportedCone.eq, h]
  · simp [SupportedCone.hash, h]
  · simp [SupportedCone.eq, h]

/-- Witness for C8: same kind with different dimensions compares equal and
hashes identically; different kinds compare unequal. -/
theorem descriptor_eq_hash_kind_only_witness :
    ((SupportedCone.ZeroConeT 3).discriminant =
      (SupportedCone.ZeroConeT 7).discriminant ∧
     SupportedCone.eq (SupportedCone.ZeroConeT 3) (SupportedCone.ZeroConeT 7) = true ∧
     SupportedCone.hash (SupportedCone.ZeroConeT 3) =
       SupportedCone.hash (SupportedCone.ZeroConeT 7)) ∧
    ((SupportedCone.NonnegativeConeT 3).discriminant ≠
      SupportedCone.ExponentialConeT.discriminant ∧
     SupportedCone.eq (SupportedCone.NonnegativeConeT 3)
       SupportedCone.ExponentialConeT = false) :=
  ⟨⟨by decide,
    ((descriptor_eq_hash_kind_only (SupportedCone.ZeroConeT 3)
      (SupportedCone.ZeroConeT 7) 3 7).2.2.2.2.1 (by decide)).1,
    ((descriptor_eq_hash_kind_only (SupportedCone.ZeroConeT 3)
      (SupportedCone.ZeroConeT 7) 3 7).2.2.2.2.1 (by decide)).2⟩,
   ⟨by decide,
    (descriptor_eq_hash_kind_only (SupportedCone.NonnegativeConeT 3)
      SupportedCone.ExponentialConeT 3 7).2.2.2.2.2 (by decide)⟩⟩

end Clarabel
